import Mathlib

/-!
Shallow embedding of `mxclient/room.go` from matrix-static: the per-room
timeline cache, its pagination window logic, and the page-retrieval API.

External collaborators (the network client, the room-state reducer, and the
`utils` helpers) are not part of `room.go`; each is modelled from the spec
where noted, either as a parameter (the fetch oracle) or as a small
definition.  Go slicing `xs[lo:hi]` is embedded as `goSlice`, which returns
`none` exactly when Go would panic with a slice-bounds error.

Functions that may call the network additionally report a `fetchLog`: the
list of requested counts of the backpagination calls they issued, in order.
-/

/-- A Matrix event as used by room.go: `gomatrix.Event` restricted to the
fields this code reads (`ID` and `Type`; the rest of the payload is opaque
to room.go). -/
structure Event where
  id : String
  type : String
  deriving DecidableEq

/-- Modelled from the spec: the room-state reducer (`RoomState`, spec section 6) is
external to room.go; we record the sequence of `UpdateOnEvent` calls as
(event, isInitialApplication) pairs, in call order. -/
abbrev RoomState := List (Event × Bool)

/-- Modelled from the spec: `RoomState.UpdateOnEvent(event, isInitial)` —
recorded by appending the call to the call log. -/
def UpdateOnEvent (s : RoomState) (e : Event) (isInitial : Bool) : RoomState :=
  s ++ [(e, isInitial)]

/-- The `Room` struct of room.go.  The `client` pointer is replaced by
passing a `Fetch` oracle to the operations that reach for the network. -/
structure Room where
  ID : String
  backPaginationToken : String
  forwardPaginationToken : String
  eventList : List Event
  latestRoomState : RoomState
  hasInitialSynced : Bool := false
  deriving DecidableEq

/-- Modelled from the spec: the Fetch Collaborator (spec section 6, `FetchOlder`):
given a requested count it returns the delivered events plus a new
older-edge cursor, or an error. -/
abbrev Fetch := Nat → Except String (List Event × String)

/-- The redaction check `event.Type == "m.room.redaction"` used by room.go. -/
def isRedaction (e : Event) : Bool := e.type == "m.room.redaction"

/-- `Room.concatBackpagination`: the loop appends every delivered event whose
type is not `m.room.redaction`, in delivery order, then replaces the back
pagination token. -/
def concatBackpagination (r : Room) (oldEvents : List Event) (newToken : String) : Room :=
  { r with
    eventList := r.eventList ++ oldEvents.filter (fun e => !isRedaction e)
    backPaginationToken := newToken }

/-- One iteration of the loop body of `Room.concatForwardPagination`:
skip redactions, otherwise fold into room state (non-initial) and prepend. -/
def fwdStep (acc : Room) (event : Event) : Room :=
  if isRedaction event then acc
  else
    { acc with
      latestRoomState := UpdateOnEvent acc.latestRoomState event false
      eventList := event :: acc.eventList }

/-- `Room.concatForwardPagination`: run the loop over the delivered events,
then replace the forward pagination token. -/
def concatForwardPagination (r : Room) (newEvents : List Event) (newToken : String) : Room :=
  { newEvents.foldl fwdStep r with forwardPaginationToken := newToken }

/-- Result of `Client.backpaginateRoom`: the count of events actually
appended, an optional error, and the updated room. -/
structure BPResult where
  numNew : Nat
  err : Option String
  room : Room
  deriving DecidableEq

/-- Modelled from the spec: `Client.backpaginateRoom` lives in client.go,
which is outside src/.  Per spec section 4.1 (`ExtendOlder`): it calls the Fetch
Collaborator with the requested count; on success the delivered events are
folded in via `concatBackpagination` (dropping redactions, appending
survivors, replacing the older-edge cursor) and the number of events
actually appended is returned; on failure the Timeline is unchanged and the
error is surfaced. -/
def backpaginateRoom (fetch : Fetch) (r : Room) (count : Nat) : BPResult :=
  match fetch count with
  | .error e => ⟨0, some e, r⟩
  | .ok (events, newToken) =>
      ⟨(events.filter (fun e => !isRedaction e)).length, none,
        concatBackpagination r events newToken⟩

/-- The linear scan of `Room.findEventIndex`: first index whose `ID` equals
the anchor. -/
def scanForEvent (l : List Event) (anchor : String) : Option Nat :=
  match l with
  | [] => none
  | event :: rest =>
      if event.id == anchor then some 0
      else (scanForEvent rest anchor).map (fun i => i + 1)

/-- Result of `Room.findEventIndex`: `(index, found)` plus the updated room
and the log of backpagination requests issued. -/
structure FindResult where
  index : Nat
  found : Bool
  room : Room
  fetchLog : List Nat
  deriving DecidableEq

/-- The `backpaginate = false` instance of `Room.findEventIndex`
(the recursive call `r.findEventIndex(anchor, false)`): a pure scan. -/
def findEventIndexNoBp (r : Room) (anchor : String) : FindResult :=
  match scanForEvent r.eventList anchor with
  | some i => ⟨i, true, r, []⟩
  | none => ⟨0, false, r, []⟩

/-- `Room.findEventIndex(anchor, backpaginate)`: scan; if not found and
`backpaginate` is set, backpaginate by 100 and, when at least one event was
added, rerun the scan once (the Go recursion with `backpaginate = false`,
inlined here as `findEventIndexNoBp`). -/
def findEventIndex (fetch : Fetch) (r : Room) (anchor : String) (backpaginate : Bool) :
    FindResult :=
  match scanForEvent r.eventList anchor with
  | some i => ⟨i, true, r, []⟩
  | none =>
      if backpaginate then
        let bp := backpaginateRoom fetch r 100
        if bp.numNew > 0 then
          let rr := findEventIndexNoBp bp.room anchor
          ⟨rr.index, rr.found, rr.room, 100 :: rr.fetchLog⟩
        else ⟨0, false, bp.room, [100]⟩
      else ⟨0, false, r, []⟩

/-- `overcompensateBackpaginationBy` of room.go. -/
def overcompensateBackpaginationBy : Int := 32

/-- Go slicing `l[lo:hi]`: defined exactly when `0 ≤ lo ≤ hi ≤ len l`,
otherwise Go panics, which we embed as `none`. -/
def goSlice (l : List Event) (lo hi : Int) : Option (List Event) :=
  if 0 ≤ lo ∧ lo ≤ hi ∧ hi ≤ (l.length : Int) then
    some ((l.drop lo.toNat).take (hi - lo).toNat)
  else none

/-- Modelled from the spec: `utils.Bound(min, v, max)` clamps `v` into the
interval (spec section 4.3 `clamp`). -/
def Bound (lo v hi : Int) : Int := max lo (min v hi)

/-- The slice `r.eventList[startIndex : Min(startIndex+number, length)]`
with `startIndex = Min(anchorIndex+offset, length)`, taken against a given
event list: the final slicing step of `getBackwardEventRange`. -/
def backRange (l : List Event) (anchorIndex offset number : Int) : Option (List Event) :=
  let length : Int := l.length
  let startIndex := min (anchorIndex + offset) length
  goSlice l startIndex (min (startIndex + number) length)

/-- Result of `getBackwardEventRange` / `GetEventPage`: the slice (`none`
embeds a Go slice-bounds panic), the updated room, and the log of
backpagination requests issued. -/
structure RangeResult where
  events : Option (List Event)
  room : Room
  fetchLog : List Nat
  deriving DecidableEq

/-- `Room.getBackwardEventRange(anchorIndex, offset, number)`: if
`delta = anchorIndex+offset+number+overcompensateBackpaginationBy ≥ length`,
backpaginate by `delta - length`, and on a nil error add the number of new
events to the tracked length; then slice
`[Min(anchorIndex+offset, length) : Min(start+number, length)]`. -/
def getBackwardEventRange (fetch : Fetch) (r : Room) (anchorIndex offset number : Int) :
    RangeResult :=
  let length : Int := r.eventList.length
  if anchorIndex + offset + number + overcompensateBackpaginationBy ≥ length then
    let req := (anchorIndex + offset + number + overcompensateBackpaginationBy - length).toNat
    let bp := backpaginateRoom fetch r req
    let length2 := if bp.err = none then length + bp.numNew else length
    let startIndex := min (anchorIndex + offset) length2
    ⟨goSlice bp.room.eventList startIndex (min (startIndex + number) length2), bp.room, [req]⟩
  else
    let startIndex := min (anchorIndex + offset) length
    ⟨goSlice r.eventList startIndex (min (startIndex + number) length), r, []⟩

/-- `Room.getForwardEventRange(index, offset, number)`:
`topIndex = Bound(0, index+number-offset, length)` and the slice
`[Max(topIndex-number, 0) : topIndex]`.  No network fetch. -/
def getForwardEventRange (r : Room) (index offset number : Int) : Option (List Event) :=
  let length : Int := r.eventList.length
  let topIndex := Bound 0 (index + number - offset) length
  goSlice r.eventList (max (topIndex - number) 0) topIndex

/-- Result of `GetEventPage`: the events (Go returns `[]gomatrix.Event{}`
with an error when the anchor is not found; `events = none` embeds a Go
panic), the error, the updated room, and the backpagination request log. -/
structure PageResult where
  events : Option (List Event)
  err : Option String
  room : Room
  fetchLog : List Nat
  deriving DecidableEq

/-- `Room.GetEventPage(anchor, offset, pageSize)`: resolve the anchor (empty
anchor means index 0; otherwise `findEventIndex(anchor, false)`, whose
failure returns an empty list and an error), then delegate to the backward
range for `offset ≥ 0` and to the forward range (with negated offset)
otherwise. -/
def GetEventPage (fetch : Fetch) (r : Room) (anchor : String) (offset pageSize : Int) :
    PageResult :=
  if anchor ≠ "" then
    let fr := findEventIndex fetch r anchor false
    if fr.found then
      if offset ≥ 0 then
        let br := getBackwardEventRange fetch fr.room (fr.index : Int) offset pageSize
        ⟨br.events, none, br.room, br.fetchLog⟩
      else
        ⟨getForwardEventRange fr.room (fr.index : Int) (-offset) pageSize, none, fr.room, []⟩
    else ⟨some [], some "Could not find event", fr.room, []⟩
  else
    if offset ≥ 0 then
      let br := getBackwardEventRange fetch r 0 offset pageSize
      ⟨br.events, none, br.room, br.fetchLog⟩
    else
      ⟨getForwardEventRange r 0 (-offset) pageSize, none, r, []⟩

/-- `RoomInitialSyncLimit` of room.go. -/
def RoomInitialSyncLimit : Nat := 256

/-- The fields of the `RoomInitialSync` response that `NewRoom` reads:
`resp.State`, `resp.Messages.Chunk`, `resp.Messages.Start`,
`resp.Messages.End`. -/
structure InitialSyncResp where
  stateEvents : List Event
  chunk : List Event
  startTok : String
  endTok : String

/-- `Client.NewRoom` (the successful branch, applied to the response of the
initial sync): the chunk loop `continue`s on every event whose type is NOT
`m.room.redaction` and prepends the rest; then the room is built and each
state event is folded into room state as an initial application. -/
def NewRoom (resp : InitialSyncResp) (roomID : String) : Room :=
  let filteredEventList := resp.chunk.foldl
    (fun acc event => if event.type ≠ "m.room.redaction" then acc else event :: acc) []
  { ID := roomID
    forwardPaginationToken := resp.endTok
    backPaginationToken := resp.startTok
    eventList := filteredEventList
    latestRoomState := resp.stateEvents.foldl (fun s e => UpdateOnEvent s e true) [] }

/-! ## Helper lemmas -/

lemma goSlice_eq_some (l : List Event) (lo hi : Int)
    (h0 : 0 ≤ lo) (h1 : lo ≤ hi) (h2 : hi ≤ (l.length : Int)) :
    goSlice l lo hi = some ((l.drop lo.toNat).take (hi - lo).toNat) := by
  unfold goSlice
  rw [if_pos ⟨h0, h1, h2⟩]

lemma goSlice_some_spec (l : List Event) (lo hi : Int) (es : List Event)
    (h : goSlice l lo hi = some es) :
    0 ≤ lo ∧ lo ≤ hi ∧ hi ≤ (l.length : Int) ∧ (es.length : Int) = hi - lo ∧
      ∃ pre post, l = pre ++ es ++ post := by
  unfold goSlice at h
  split_ifs at h with hc
  · obtain ⟨h0, h1, h2⟩ := hc
    cases h
    refine ⟨h0, h1, h2, ?_, l.take lo.toNat, (l.drop lo.toNat).drop (hi - lo).toNat, ?_⟩
    · rw [List.length_take, List.length_drop]
      omega
    · have hinner := List.take_append_drop (hi - lo).toNat (l.drop lo.toNat)
      have houter := List.take_append_drop lo.toNat l
      rw [List.append_assoc, hinner, houter]

lemma backRange_eq_some (l : List Event) (a o n : Int) (hao : 0 ≤ a + o) (hn : 0 ≤ n) :
    backRange l a o n =
      some ((l.drop (min (a + o) (l.length : Int)).toNat).take
        (min (min (a + o) (l.length : Int) + n) (l.length : Int) -
          min (a + o) (l.length : Int)).toNat) := by
  unfold backRange
  exact goSlice_eq_some _ _ _ (by omega) (by omega) (by omega)

lemma backRange_isSome (l : List Event) (a o n : Int) (hao : 0 ≤ a + o) (hn : 0 ≤ n) :
    (backRange l a o n).isSome := by
  rw [backRange_eq_some l a o n hao hn]
  rfl

lemma backRange_some_spec (l : List Event) (a o n : Int) (es : List Event)
    (h : backRange l a o n = some es) :
    (es.length : Int) ≤ n ∧ ∃ pre post, l = pre ++ es ++ post := by
  unfold backRange at h
  obtain ⟨h0, h1, h2, hlen, pre, post, hsplit⟩ := goSlice_some_spec _ _ _ _ h
  refine ⟨?_, pre, post, hsplit⟩
  omega

lemma backpaginateRoom_spec (fetch : Fetch) (r : Room) (c : Nat) :
    ((backpaginateRoom fetch r c).room.eventList.length : Int) =
      (r.eventList.length : Int) + (backpaginateRoom fetch r c).numNew ∧
    ((backpaginateRoom fetch r c).err ≠ none → (backpaginateRoom fetch r c).room = r) ∧
    ∃ tail, (backpaginateRoom fetch r c).room.eventList = r.eventList ++ tail := by
  unfold backpaginateRoom
  cases hf : fetch c with
  | error e => exact ⟨by simp, fun _ => rfl, [], by simp⟩
  | ok p =>
    obtain ⟨evs, tok⟩ := p
    refine ⟨?_, fun h => absurd rfl h, evs.filter (fun e => !isRedaction e), rfl⟩
    simp [concatBackpagination]

lemma backpaginateRoom_error_eq (fetch : Fetch) (r : Room) (c : Nat) (e : String)
    (hf : fetch c = .error e) :
    backpaginateRoom fetch r c = ⟨0, some e, r⟩ := by
  unfold backpaginateRoom
  rw [hf]

lemma scanForEvent_eq_none_iff (l : List Event) (a : String) :
    scanForEvent l a = none ↔ ∀ e ∈ l, e.id ≠ a := by
  induction l with
  | nil => simp [scanForEvent]
  | cons e rest ih =>
    unfold scanForEvent
    by_cases h : e.id = a
    · simp [h]
    · have hb : (e.id == a) = false := by
        simp [h]
      rw [hb]
      simp only [Bool.false_eq_true, if_false, List.mem_cons]
      constructor
      · intro hmap x hx
        rcases hx with hx | hx
        · subst hx; exact h
        · have : scanForEvent rest a = none := by
            cases hres : scanForEvent rest a with
            | none => rfl
            | some i => rw [hres] at hmap; simp at hmap
          exact (ih.mp this) x hx
      · intro hall
        have : scanForEvent rest a = none := ih.mpr (fun x hx => hall x (Or.inr hx))
        rw [this]
        rfl

lemma getBackwardEventRange_of_lt (fetch : Fetch) (r : Room) (a o n : Int)
    (hd : a + o + n + 32 < (r.eventList.length : Int)) :
    getBackwardEventRange fetch r a o n = ⟨backRange r.eventList a o n, r, []⟩ := by
  unfold getBackwardEventRange
  rw [if_neg]
  · rfl
  · unfold overcompensateBackpaginationBy
    omega

lemma getBackwardEventRange_char (fetch : Fetch) (r : Room) (a o n : Int) :
    ∃ r2 tail, r2.eventList = r.eventList ++ tail ∧
      getBackwardEventRange fetch r a o n =
        ⟨backRange r2.eventList a o n, r2,
          if a + o + n + 32 ≥ (r.eventList.length : Int)
            then [(a + o + n + 32 - (r.eventList.length : Int)).toNat] else []⟩ := by
  by_cases hd : a + o + n + 32 ≥ (r.eventList.length : Int)
  · rw [if_pos hd]
    unfold getBackwardEventRange
    simp only [overcompensateBackpaginationBy]
    rw [if_pos hd]
    cases hf : fetch (a + o + n + 32 - (r.eventList.length : Int)).toNat with
    | error e =>
        refine ⟨r, [], by simp, ?_⟩
        rw [backpaginateRoom_error_eq fetch r _ e hf]
        simp only [backRange]
        rfl
    | ok p =>
        obtain ⟨evs, tok⟩ := p
        refine ⟨concatBackpagination r evs tok, evs.filter (fun e => !isRedaction e), rfl, ?_⟩
        have hbp : backpaginateRoom fetch r (a + o + n + 32 - (r.eventList.length : Int)).toNat =
            ⟨(evs.filter (fun e => !isRedaction e)).length, none, concatBackpagination r evs tok⟩ := by
          unfold backpaginateRoom
          rw [hf]
        rw [hbp]
        have hlen : ((concatBackpagination r evs tok).eventList.length : Int) =
            (r.eventList.length : Int) + (evs.filter (fun e => !isRedaction e)).length := by
          simp [concatBackpagination]
        simp only [backRange]
        rw [← hlen]
        rfl
  · rw [if_neg hd]
    exact ⟨r, [], by simp, getBackwardEventRange_of_lt fetch r a o n (by omega)⟩

lemma getBackwardEventRange_error (fetch : Fetch) (r : Room) (a o n : Int)
    (hfail : ∀ c, ∃ e, fetch c = Except.error e) :
    getBackwardEventRange fetch r a o n =
      ⟨backRange r.eventList a o n, r,
        if a + o + n + 32 ≥ (r.eventList.length : Int)
          then [(a + o + n + 32 - (r.eventList.length : Int)).toNat] else []⟩ := by
  by_cases hd : a + o + n + 32 ≥ (r.eventList.length : Int)
  · rw [if_pos hd]
    unfold getBackwardEventRange
    simp only [overcompensateBackpaginationBy]
    rw [if_pos hd]
    obtain ⟨e, hf⟩ := hfail (a + o + n + 32 - (r.eventList.length : Int)).toNat
    rw [backpaginateRoom_error_eq fetch r _ e hf]
    simp only [backRange]
    rfl
  · rw [if_neg hd]
    exact getBackwardEventRange_of_lt fetch r a o n (by omega)

lemma getForwardEventRange_eq_some (r : Room) (i off n : Int) (hn : 0 ≤ n) :
    getForwardEventRange r i off n =
      some ((r.eventList.drop
          (max (Bound 0 (i + n - off) (r.eventList.length : Int) - n) 0).toNat).take
        (Bound 0 (i + n - off) (r.eventList.length : Int) -
          max (Bound 0 (i + n - off) (r.eventList.length : Int) - n) 0).toNat) := by
  unfold getForwardEventRange Bound
  exact goSlice_eq_some _ _ _ (by omega) (by omega) (by omega)

lemma findEventIndexNoBp_eq_found (r : Room) (anchor : String) (i : Nat)
    (hscan : scanForEvent r.eventList anchor = some i) :
    findEventIndexNoBp r anchor = ⟨i, true, r, []⟩ := by
  unfold findEventIndexNoBp
  rw [hscan]

lemma findEventIndexNoBp_eq_notfound (r : Room) (anchor : String)
    (hscan : scanForEvent r.eventList anchor = none) :
    findEventIndexNoBp r anchor = ⟨0, false, r, []⟩ := by
  unfold findEventIndexNoBp
  rw [hscan]

lemma findEventIndex_false_found (fetch : Fetch) (r : Room) (anchor : String) (i : Nat)
    (hscan : scanForEvent r.eventList anchor = some i) :
    findEventIndex fetch r anchor false = ⟨i, true, r, []⟩ := by
  unfold findEventIndex
  rw [hscan]

lemma findEventIndex_false_notfound (fetch : Fetch) (r : Room) (anchor : String)
    (hscan : scanForEvent r.eventList anchor = none) :
    findEventIndex fetch r anchor false = ⟨0, false, r, []⟩ := by
  unfold findEventIndex
  rw [hscan]
  rfl

lemma findEventIndexNoBp_fetchLog (r : Room) (anchor : String) :
    (findEventIndexNoBp r anchor).fetchLog = [] := by
  unfold findEventIndexNoBp
  cases hscan : scanForEvent r.eventList anchor <;> rfl

lemma findEventIndex_true_fetchLog (fetch : Fetch) (r : Room) (anchor : String)
    (hscan : scanForEvent r.eventList anchor = none) :
    (findEventIndex fetch r anchor true).fetchLog = [100] := by
  have hnobp := findEventIndexNoBp_fetchLog (backpaginateRoom fetch r 100).room anchor
  unfold findEventIndex
  rw [hscan]
  rw [if_pos rfl]
  dsimp only
  by_cases hnum : (backpaginateRoom fetch r 100).numNew > 0
  · rw [if_pos hnum]
    dsimp only
    rw [hnobp]
  · rw [if_neg hnum]

lemma GetEventPage_empty_bwd (fetch : Fetch) (r : Room) (offset psize : Int)
    (h : 0 ≤ offset) :
    GetEventPage fetch r "" offset psize =
      ⟨(getBackwardEventRange fetch r 0 offset psize).events, none,
        (getBackwardEventRange fetch r 0 offset psize).room,
        (getBackwardEventRange fetch r 0 offset psize).fetchLog⟩ := by
  unfold GetEventPage
  rw [if_neg (by simp), if_pos h]

lemma GetEventPage_empty_fwd (fetch : Fetch) (r : Room) (offset psize : Int)
    (h : offset < 0) :
    GetEventPage fetch r "" offset psize =
      ⟨getForwardEventRange r 0 (-offset) psize, none, r, []⟩ := by
  unfold GetEventPage
  rw [if_neg (by simp), if_neg (by omega)]

lemma GetEventPage_found_bwd (fetch : Fetch) (r : Room) (anchor : String)
    (offset psize : Int) (i : Nat) (hne : anchor ≠ "")
    (hscan : scanForEvent r.eventList anchor = some i) (h : 0 ≤ offset) :
    GetEventPage fetch r anchor offset psize =
      ⟨(getBackwardEventRange fetch r (i : Int) offset psize).events, none,
        (getBackwardEventRange fetch r (i : Int) offset psize).room,
        (getBackwardEventRange fetch r (i : Int) offset psize).fetchLog⟩ := by
  unfold GetEventPage
  rw [if_pos hne, findEventIndex_false_found fetch r anchor i hscan]
  show (if (0:Int) ≤ offset then _ else _) = _
  rw [if_pos h]

lemma GetEventPage_found_fwd (fetch : Fetch) (r : Room) (anchor : String)
    (offset psize : Int) (i : Nat) (hne : anchor ≠ "")
    (hscan : scanForEvent r.eventList anchor = some i) (h : offset < 0) :
    GetEventPage fetch r anchor offset psize =
      ⟨getForwardEventRange r (i : Int) (-offset) psize, none, r, []⟩ := by
  unfold GetEventPage
  rw [if_pos hne, findEventIndex_false_found fetch r anchor i hscan]
  show (if (0:Int) ≤ offset then _ else _) = _
  rw [if_neg (by omega)]

lemma GetEventPage_notfound (fetch : Fetch) (r : Room) (anchor : String)
    (offset psize : Int) (hne : anchor ≠ "")
    (hscan : scanForEvent r.eventList anchor = none) :
    GetEventPage fetch r anchor offset psize =
      ⟨some [], some "Could not find event", r, []⟩ := by
  unfold GetEventPage
  rw [if_pos hne, findEventIndex_false_notfound fetch r anchor hscan]
  rfl

lemma foldl_fwdStep_spec (l : List Event) (r : Room) :
    (l.foldl fwdStep r).eventList = (l.filter (fun e => !isRedaction e)).reverse ++ r.eventList ∧
    (l.foldl fwdStep r).latestRoomState =
      r.latestRoomState ++ (l.filter (fun e => !isRedaction e)).map (fun e => (e, false)) ∧
    (l.foldl fwdStep r).backPaginationToken = r.backPaginationToken ∧
    (l.foldl fwdStep r).forwardPaginationToken = r.forwardPaginationToken := by
  induction l generalizing r with
  | nil => simp
  | cons e rest ih =>
    rw [List.foldl_cons]
    by_cases hred : isRedaction e
    · have hstep : fwdStep r e = r := by
        unfold fwdStep
        rw [if_pos hred]
      have hfil : (e :: rest).filter (fun x => !isRedaction x) =
          rest.filter (fun x => !isRedaction x) := by
        simp [List.filter_cons, hred]
      rw [hstep, hfil]
      exact ih r
    · have hstep : fwdStep r e =
          { r with
            latestRoomState := UpdateOnEvent r.latestRoomState e false
            eventList := e :: r.eventList } := by
        unfold fwdStep
        rw [if_neg hred]
      have hfil : (e :: rest).filter (fun x => !isRedaction x) =
          e :: rest.filter (fun x => !isRedaction x) := by
        simp [List.filter_cons, hred]
      obtain ⟨h1, h2, h3, h4⟩ := ih (fwdStep r e)
      rw [hfil]
      refine ⟨?_, ?_, ?_, ?_⟩
      · rw [h1, hstep]
        simp
      · rw [h2, hstep]
        simp [UpdateOnEvent]
      · rw [h3, hstep]
      · rw [h4, hstep]

lemma foldl_keep_redactions (l : List Event) (init : List Event) :
    l.foldl (fun acc event => if event.type ≠ "m.room.redaction" then acc else event :: acc)
        init =
      (l.filter (fun e => e.type == "m.room.redaction")).reverse ++ init := by
  induction l generalizing init with
  | nil => simp
  | cons e rest ih =>
    rw [List.foldl_cons]
    by_cases h : e.type = "m.room.redaction"
    · have hif : (if e.type ≠ "m.room.redaction" then init else e :: init) = e :: init := by
        rw [if_neg]
        simp [h]
      rw [hif, ih]
      simp [List.filter_cons, h]
    · have hif : (if e.type ≠ "m.room.redaction" then init else e :: init) = init := by
        rw [if_pos h]
      rw [hif, ih]
      simp [List.filter_cons, h]

/-! ## Concrete fixtures -/

/-- A non-redaction event with id `a`. -/
def evA : Event := ⟨"a", "m.room.message"⟩

/-- A non-redaction event with id `b`. -/
def evB : Event := ⟨"b", "m.room.message"⟩

/-- A room caching a single event (id `a`). -/
def roomA : Room := ⟨"!r", "B0", "F0", [evA], [], false⟩

/-- A room with no cached events. -/
def emptyRoom : Room := ⟨"!r", "B0", "F0", [], [], false⟩

/-- The ten newest-first cached events of the spec scenario (indices 0..9). -/
def chunk10 : List Event :=
  [⟨"e0", "m.room.message"⟩, ⟨"e1", "m.room.message"⟩, ⟨"e2", "m.room.message"⟩,
    ⟨"e3", "m.room.message"⟩, ⟨"e4", "m.room.message"⟩, ⟨"e5", "m.room.message"⟩,
    ⟨"e6", "m.room.message"⟩, ⟨"e7", "m.room.message"⟩, ⟨"e8", "m.room.message"⟩,
    ⟨"e9", "m.room.message"⟩]

/-- The spec-scenario room with 10 cached events. -/
def room10 : Room := ⟨"!r", "B0", "F0", chunk10, [], false⟩

/-- A room caching exactly 32 copies of `evA`. -/
def room32 : Room := ⟨"!r", "B0", "F0", List.replicate 32 evA, [], false⟩

/-- A room caching exactly 33 copies of `evA`. -/
def room33 : Room := ⟨"!r", "B0", "F0", List.replicate 33 evA, [], false⟩

/-- A fetch oracle delivering three fresh non-redaction events. -/
def fetch3 : Fetch := fun _ =>
  .ok ([⟨"x1", "m.room.message"⟩, ⟨"x2", "m.room.message"⟩, ⟨"x3", "m.room.message"⟩], "B1")

/-- A fetch oracle delivering the single event `evB`. -/
def fetchB : Fetch := fun _ => .ok ([evB], "B1")

/-- A fetch oracle that always fails. -/
def failFetch : Fetch := fun _ => .error "network error"

/-! ## Claim theorems -/

/-- C1: for every initial-sync response, the Room created by `NewRoom` has an
event list containing exactly the redaction-type events of the delivered
message chunk and no others, in delivery order reversed, so the
last-delivered kept event sits at index 0. -/
theorem NewRoom_keeps_exactly_redactions_reversed (resp : InitialSyncResp) (roomID : String) :
    (NewRoom resp roomID).eventList =
      (resp.chunk.filter (fun e => e.type == "m.room.redaction")).reverse := by
  unfold NewRoom
  rw [foldl_keep_redactions]
  simp

/-- C2 counterexample: for the unknown anchor `b` on a room caching only
`a`, `GetEventPage` issues no backward extension at all (the claim demands
exactly one extension of 100) and reports the anchor as not found, even
though the fetch oracle would have delivered the anchor event. -/
theorem GetEventPage_unknownAnchor_counterexample :
    (GetEventPage fetchB roomA "b" 0 5).fetchLog = [] ∧
    (GetEventPage fetchB roomA "b" 0 5).fetchLog ≠ [100] ∧
    (GetEventPage fetchB roomA "b" 0 5).err = some "Could not find event" := by
  decide

/-- C2 (amended): `GetEventPage` resolves its anchor with
`backpaginate = false`, so an unknown non-empty anchor is reported not
found immediately, with no backward extension and no state change; the
one-extension-of-100-then-rescan-once behaviour belongs to
`findEventIndex` with `backpaginate = true`, which logs exactly one
100-event extension request. -/
theorem findEventIndex_single_extension (fetch : Fetch) (r : Room) (anchor : String)
    (offset psize : Int) (hne : anchor ≠ "")
    (hnotin : scanForEvent r.eventList anchor = none) :
    (GetEventPage fetch r anchor offset psize).fetchLog = [] ∧
    (GetEventPage fetch r anchor offset psize).err = some "Could not find event" ∧
    (GetEventPage fetch r anchor offset psize).events = some [] ∧
    (GetEventPage fetch r anchor offset psize).room = r ∧
    (findEventIndex fetch r anchor true).fetchLog = [100] := by
  rw [GetEventPage_notfound fetch r anchor offset psize hne hnotin]
  exact ⟨rfl, rfl, rfl, rfl, findEventIndex_true_fetchLog fetch r anchor hnotin⟩

/-- C2 witness: the amended claim at the concrete unknown anchor `b`. -/
theorem findEventIndex_single_extension_witness :
    (GetEventPage fetchB roomA "b" 0 5).fetchLog = [] ∧
    (GetEventPage fetchB roomA "b" 0 5).err = some "Could not find event" ∧
    (GetEventPage fetchB roomA "b" 0 5).events = some [] ∧
    (GetEventPage fetchB roomA "b" 0 5).room = roomA ∧
    (findEventIndex fetchB roomA "b" true).fetchLog = [100] :=
  findEventIndex_single_extension fetchB roomA "b" 0 5 (by decide) (by decide)

/-- C3 counterexample: with 10 cached events, `GetPage("", 5, 5)` does not
request a backward extension of 37 events: the needed depth is
`0+5+5+32 = 42`, so the request is `42 - 10 = 32` events, not 37. -/
theorem scenario_depth_counterexample :
    (GetEventPage fetch3 room10 "" 5 5).fetchLog ≠ [37] := by
  decide

/-- C3 (amended): with 10 cached events, `GetPage("", 5, 5)` computes a
needed depth of `0+5+5+32 = 42 ≥ 10` and requests a backward extension of
`42-10 = 32` events; when the fetch returns 3 new events the tracked length
becomes 13 and the returned slice is `[min(5,13), min(10,13)) = [5,10)` —
the 5 originally-cached remaining events, with no error despite the
shortfall. -/
theorem scenario_depth_amended :
    (GetEventPage fetch3 room10 "" 5 5).fetchLog = [32] ∧
    (GetEventPage fetch3 room10 "" 5 5).err = none ∧
    (GetEventPage fetch3 room10 "" 5 5).room.eventList.length = 13 ∧
    (GetEventPage fetch3 room10 "" 5 5).events =
      some [⟨"e5", "m.room.message"⟩, ⟨"e6", "m.room.message"⟩, ⟨"e7", "m.room.message"⟩,
        ⟨"e8", "m.room.message"⟩, ⟨"e9", "m.room.message"⟩] := by
  decide

/-- C4: for non-negative `(anchorIndex, offset, count)`, the backward range
algorithm triggers exactly one backward fetch of `neededDepth - length`
events precisely when `neededDepth = anchorIndex+offset+count+32 ≥ length`,
tracks the extended length, and returns exactly the sub-sequence
`[min(anchorIndex+offset, length), min(start+count, length))` of the
(possibly extended) cached newest-first timeline — never more than `count`
events, always a contiguous sub-sequence. -/
theorem getBackwardEventRange_spec (fetch : Fetch) (r : Room) (a o n : Int)
    (ha : 0 ≤ a) (ho : 0 ≤ o) (hn : 0 ≤ n) :
    (getBackwardEventRange fetch r a o n).fetchLog =
      (if a + o + n + 32 ≥ (r.eventList.length : Int)
        then [(a + o + n + 32 - (r.eventList.length : Int)).toNat] else []) ∧
    ((getBackwardEventRange fetch r a o n).events).isSome ∧
    (getBackwardEventRange fetch r a o n).events =
      backRange (getBackwardEventRange fetch r a o n).room.eventList a o n ∧
    ∀ es, (getBackwardEventRange fetch r a o n).events = some es →
      (es.length : Int) ≤ n ∧
      ∃ pre post, (getBackwardEventRange fetch r a o n).room.eventList = pre ++ es ++ post := by
  obtain ⟨r2, tail, htail, heq⟩ := getBackwardEventRange_char fetch r a o n
  rw [heq]
  refine ⟨rfl, backRange_isSome r2.eventList a o n (by omega) hn, rfl, ?_⟩
  intro es hes
  exact backRange_some_spec r2.eventList a o n es hes

/-- C4 witness: the backward range specification at a concrete input. -/
theorem getBackwardEventRange_spec_witness :
    (getBackwardEventRange fetchB roomA 0 0 1).fetchLog =
      (if (0:Int) + 0 + 1 + 32 ≥ (roomA.eventList.length : Int)
        then [((0:Int) + 0 + 1 + 32 - (roomA.eventList.length : Int)).toNat] else []) ∧
    ((getBackwardEventRange fetchB roomA 0 0 1).events).isSome ∧
    (getBackwardEventRange fetchB roomA 0 0 1).events =
      backRange (getBackwardEventRange fetchB roomA 0 0 1).room.eventList 0 0 1 ∧
    ∀ es, (getBackwardEventRange fetchB roomA 0 0 1).events = some es →
      (es.length : Int) ≤ 1 ∧
      ∃ pre post, (getBackwardEventRange fetchB roomA 0 0 1).room.eventList = pre ++ es ++ post :=
  getBackwardEventRange_spec fetchB roomA 0 0 1 (by decide) (by decide) (by decide)

/-- C5 counterexample: a window of exactly `anchorIndex+offset+pageSize+32`
cached events (here 32, with all three arguments 0) does trigger a backward
extension — the code fetches when `delta ≥ length`, not only when
`delta > length` — and the room is changed by the call. -/
theorem no_fetch_at_exact_buffer_counterexample :
    (GetEventPage fetchB room32 "" 0 0).fetchLog ≠ [] ∧
    (GetEventPage fetchB room32 "" 0 0).room ≠ room32 := by
  decide

/-- C5 (amended): for every GetPage request with non-negative offset whose
cached window strictly exceeds `anchorIndex + offset + pageSize + 32`
events (at least one more), no backward extension is invoked and the
Room is unchanged by the call. -/
theorem no_fetch_when_window_deep_enough (fetch : Fetch) (r : Room) (anchor : String)
    (offset psize : Int) (i : Nat) (hoff : 0 ≤ offset)
    (hanchor : if anchor = "" then i = 0 else scanForEvent r.eventList anchor = some i)
    (hdepth : (i : Int) + offset + psize + 32 < (r.eventList.length : Int)) :
    (GetEventPage fetch r anchor offset psize).fetchLog = [] ∧
    (GetEventPage fetch r anchor offset psize).room = r := by
  by_cases ha : anchor = ""
  · rw [if_pos ha] at hanchor
    subst hanchor
    subst ha
    rw [GetEventPage_empty_bwd fetch r offset psize hoff]
    rw [getBackwardEventRange_of_lt fetch r 0 offset psize (by push_cast at hdepth; omega)]
    exact ⟨rfl, rfl⟩
  · rw [if_neg ha] at hanchor
    rw [GetEventPage_found_bwd fetch r anchor offset psize i ha hanchor hoff]
    rw [getBackwardEventRange_of_lt fetch r (i : Int) offset psize (by omega)]
    exact ⟨rfl, rfl⟩

/-- C5 witness: 33 cached events, `GetPage("", 0, 0)`: `0+0+0+32 < 33`,
so no fetch and no state change. -/
theorem no_fetch_when_window_deep_enough_witness :
    (GetEventPage fetchB room33 "" 0 0).fetchLog = [] ∧
    (GetEventPage fetchB room33 "" 0 0).room = room33 :=
  no_fetch_when_window_deep_enough fetchB room33 "" 0 0 0 (by decide) (by decide) (by decide)

/-- C6: for every backward page request (empty anchor, or any anchor that
resolves in the cached timeline) during which the backward fetch fails with
an error, the timeline and cursors are unchanged, the length used for
slicing is the pre-call length, and GetPage still succeeds (nil error) with
a slice clamped to that unchanged length — possibly fewer events than
pageSize. -/
theorem fetch_failure_nonfatal (fetch : Fetch) (r : Room) (anchor : String)
    (offset psize : Int) (i : Nat)
    (hoff : 0 ≤ offset) (hps : 0 ≤ psize)
    (hanchor : if anchor = "" then i = 0 else scanForEvent r.eventList anchor = some i)
    (hfail : ∀ c, ∃ e, fetch c = Except.error e) :
    (GetEventPage fetch r anchor offset psize).err = none ∧
    (GetEventPage fetch r anchor offset psize).room = r ∧
    (GetEventPage fetch r anchor offset psize).events =
      backRange r.eventList (i : Int) offset psize ∧
    ((GetEventPage fetch r anchor offset psize).events).isSome ∧
    ∀ es, (GetEventPage fetch r anchor offset psize).events = some es →
      (es.length : Int) ≤ psize := by
  by_cases ha : anchor = ""
  · rw [if_pos ha] at hanchor
    subst hanchor
    subst ha
    rw [GetEventPage_empty_bwd fetch r offset psize hoff]
    rw [getBackwardEventRange_error fetch r 0 offset psize hfail, Nat.cast_zero]
    refine ⟨rfl, rfl, rfl, backRange_isSome r.eventList 0 offset psize (by omega) hps, ?_⟩
    intro es hes
    exact (backRange_some_spec r.eventList 0 offset psize es hes).1
  · rw [if_neg ha] at hanchor
    rw [GetEventPage_found_bwd fetch r anchor offset psize i ha hanchor hoff]
    rw [getBackwardEventRange_error fetch r (i : Int) offset psize hfail]
    refine ⟨rfl, rfl, rfl,
      backRange_isSome r.eventList (i : Int) offset psize (by omega) hps, ?_⟩
    intro es hes
    exact (backRange_some_spec r.eventList (i : Int) offset psize es hes).1

/-- C6 witness: a failing-fetch page request anchored at the resolvable
non-empty anchor `e5` (index 5) of the ten-event room. -/
theorem fetch_failure_nonfatal_witness :
    (GetEventPage failFetch room10 "e5" 0 5).err = none ∧
    (GetEventPage failFetch room10 "e5" 0 5).room = room10 ∧
    (GetEventPage failFetch room10 "e5" 0 5).events =
      backRange room10.eventList ((5 : Nat) : Int) 0 5 ∧
    ((GetEventPage failFetch room10 "e5" 0 5).events).isSome ∧
    ∀ es, (GetEventPage failFetch room10 "e5" 0 5).events = some es →
      (es.length : Int) ≤ 5 :=
  fetch_failure_nonfatal failFetch room10 "e5" 0 5 5 (by decide) (by decide) (by decide)
    (fun c => ⟨"network error", rfl⟩)

/-- C7: `GetEventPage` returns a non-nil error iff its anchor identifier is
non-empty and cannot be located in the cached timeline (no extension is
attempted by the `backpaginate = false` resolution, so the timeline is not
extended); in that case it returns an empty event list; an empty anchor
resolves to index 0 and never yields an anchor-resolution error. -/
theorem GetEventPage_error_iff (fetch : Fetch) (r : Room) (anchor : String)
    (offset psize : Int) :
    ((GetEventPage fetch r anchor offset psize).err.isSome ↔
      anchor ≠ "" ∧ ∀ e ∈ r.eventList, e.id ≠ anchor) ∧
    ((GetEventPage fetch r anchor offset psize).err.isSome →
      (GetEventPage fetch r anchor offset psize).events = some [] ∧
      (GetEventPage fetch r anchor offset psize).err = some "Could not find event") ∧
    (anchor = "" → (GetEventPage fetch r anchor offset psize).err = none) := by
  by_cases ha : anchor = ""
  · subst ha
    by_cases hoff : 0 ≤ offset
    · rw [GetEventPage_empty_bwd fetch r offset psize hoff]
      simp
    · rw [GetEventPage_empty_fwd fetch r offset psize (by omega)]
      simp
  · cases hscan : scanForEvent r.eventList anchor with
    | none =>
        rw [GetEventPage_notfound fetch r anchor offset psize ha hscan]
        refine ⟨?_, fun _ => ⟨rfl, rfl⟩, fun h => absurd h ha⟩
        constructor
        · intro _
          exact ⟨ha, (scanForEvent_eq_none_iff r.eventList anchor).mp hscan⟩
        · intro _
          rfl
    | some i =>
        have hnotall : ¬(anchor ≠ "" ∧ ∀ e ∈ r.eventList, e.id ≠ anchor) := by
          rintro ⟨-, hall⟩
          have := (scanForEvent_eq_none_iff r.eventList anchor).mpr hall
          rw [hscan] at this
          exact Option.noConfusion this
        by_cases hoff : 0 ≤ offset
        · rw [GetEventPage_found_bwd fetch r anchor offset psize i ha hscan hoff]
          refine ⟨?_, ?_, fun h => absurd h ha⟩
          · simp only [Option.isSome_none]
            constructor
            · intro h
              simp at h
            · intro h
              exact absurd h hnotall
          · intro h
            simp at h
        · rw [GetEventPage_found_fwd fetch r anchor offset psize i ha hscan (by omega)]
          refine ⟨?_, ?_, fun h => absurd h ha⟩
          · simp only [Option.isSome_none]
            constructor
            · intro h
              simp at h
            · intro h
              exact absurd h hnotall
          · intro h
            simp at h

/-- C7 witness: the error characterization at a concrete unknown anchor. -/
theorem GetEventPage_error_iff_witness :
    ((GetEventPage fetchB roomA "b" 0 5).err.isSome ↔
      "b" ≠ "" ∧ ∀ e ∈ roomA.eventList, e.id ≠ "b") ∧
    ((GetEventPage fetchB roomA "b" 0 5).err.isSome →
      (GetEventPage fetchB roomA "b" 0 5).events = some [] ∧
      (GetEventPage fetchB roomA "b" 0 5).err = some "Could not find event") ∧
    ("b" = "" → (GetEventPage fetchB roomA "b" 0 5).err = none) :=
  GetEventPage_error_iff fetchB roomA "b" 0 5

/-- C8: `concatForwardPagination` drops every redaction-type event, folds
each survivor into room state with `isInitialApplication = false`, prepends
the survivors so they sit at the front in arrival order reversed (the last
surviving delivered event at index 0), and replaces the newer-edge cursor
with the supplied one. -/
theorem concatForwardPagination_spec (r : Room) (newEvents : List Event) (tok : String) :
    (concatForwardPagination r newEvents tok).eventList =
      (newEvents.filter (fun e => !isRedaction e)).reverse ++ r.eventList ∧
    (concatForwardPagination r newEvents tok).latestRoomState =
      r.latestRoomState ++
        (newEvents.filter (fun e => !isRedaction e)).map (fun e => (e, false)) ∧
    (concatForwardPagination r newEvents tok).forwardPaginationToken = tok ∧
    (newEvents.filter (fun e => !isRedaction e) ≠ [] →
      (concatForwardPagination r newEvents tok).eventList.head? =
        (newEvents.filter (fun e => !isRedaction e)).getLast?) := by
  obtain ⟨h1, h2, h3, h4⟩ := foldl_fwdStep_spec newEvents r
  unfold concatForwardPagination
  refine ⟨h1, h2, rfl, ?_⟩
  intro hne
  show (newEvents.foldl fwdStep r).eventList.head? = _
  rw [h1]
  cases hrev : (newEvents.filter (fun e => !isRedaction e)).reverse with
  | nil =>
      exact absurd (by simpa using congrArg List.reverse hrev) hne
  | cons x xs =>
      rw [← List.head?_reverse]
      rw [hrev]
      rfl

/-- C8 witness: the forward-extension specification at a concrete input. -/
theorem concatForwardPagination_spec_witness :
    (concatForwardPagination roomA [evB] "F1").eventList =
      (([evB]).filter (fun e => !isRedaction e)).reverse ++ roomA.eventList ∧
    (concatForwardPagination roomA [evB] "F1").latestRoomState =
      roomA.latestRoomState ++
        (([evB]).filter (fun e => !isRedaction e)).map (fun e => (e, false)) ∧
    (concatForwardPagination roomA [evB] "F1").forwardPaginationToken = "F1" ∧
    (concatForwardPagination roomA [evB] "F1").eventList.head? =
      (([evB]).filter (fun e => !isRedaction e)).getLast? := by
  obtain ⟨h1, h2, h3, h4⟩ := concatForwardPagination_spec roomA [evB] "F1"
  exact ⟨h1, h2, h3, h4 (by decide)⟩

/-- C9 counterexample: with negative offset and negative pageSize the code
panics (slice bounds out of range) instead of returning the claimed slice:
`GetPage("", -1, -1)` on a one-event room computes `topIndex = 0` and
`bottomIndex = max(0 - (-1), 0) = 1 > 0`. -/
theorem forward_page_counterexample :
    (GetEventPage fetchB roomA "" (-1) (-1)).events = none := by
  decide

/-- C9 (amended): for every GetPage call with negative offset and
`pageSize ≥ 0`, no network fetch occurs and the Room is unchanged; with
`fwdOffset = -offset`, the returned slice is exactly
`[max(topIndex - pageSize, 0), topIndex)` where
`topIndex = clamp(anchorIndex + pageSize - fwdOffset, 0, length)`. -/
theorem forward_page_spec (fetch : Fetch) (r : Room) (anchor : String)
    (offset psize : Int) (i : Nat) (hoff : offset < 0) (hps : 0 ≤ psize)
    (hanchor : if anchor = "" then i = 0 else scanForEvent r.eventList anchor = some i) :
    (GetEventPage fetch r anchor offset psize).fetchLog = [] ∧
    (GetEventPage fetch r anchor offset psize).room = r ∧
    (GetEventPage fetch r anchor offset psize).events =
      some ((r.eventList.drop
          (max (Bound 0 ((i : Int) + psize - (-offset)) (r.eventList.length : Int) - psize)
            0).toNat).take
        (Bound 0 ((i : Int) + psize - (-offset)) (r.eventList.length : Int) -
          max (Bound 0 ((i : Int) + psize - (-offset)) (r.eventList.length : Int) - psize)
            0).toNat) := by
  by_cases ha : anchor = ""
  · rw [if_pos ha] at hanchor
    subst hanchor
    subst ha
    rw [GetEventPage_empty_fwd fetch r offset psize hoff]
    refine ⟨rfl, rfl, ?_⟩
    simp only [Nat.cast_zero]
    exact getForwardEventRange_eq_some r 0 (-offset) psize hps
  · rw [if_neg ha] at hanchor
    rw [GetEventPage_found_fwd fetch r anchor offset psize i ha hanchor hoff]
    refine ⟨rfl, rfl, ?_⟩
    exact getForwardEventRange_eq_some r (i : Int) (-offset) psize hps

/-- C9 witness: the forward-page specification at a concrete input. -/
theorem forward_page_spec_witness :
    (GetEventPage fetchB roomA "" (-1) 1).fetchLog = [] ∧
    (GetEventPage fetchB roomA "" (-1) 1).room = roomA ∧
    (GetEventPage fetchB roomA "" (-1) 1).events =
      some ((roomA.eventList.drop
          (max (Bound 0 (((0 : Nat) : Int) + 1 - (-(-1))) (roomA.eventList.length : Int) - 1)
            0).toNat).take
        (Bound 0 (((0 : Nat) : Int) + 1 - (-(-1))) (roomA.eventList.length : Int) -
          max (Bound 0 (((0 : Nat) : Int) + 1 - (-(-1))) (roomA.eventList.length : Int) - 1)
            0).toNat) :=
  forward_page_spec fetchB roomA "" (-1) 1 0 (by decide) (by decide) (by decide)

/-- C10: with `pageSize ≥ 0` (and the non-negative anchor index and offset
magnitudes the wrapper produces) both range computations index the event
list in bounds, so the slice is always defined; and `pageSize ≥ 0` is a
necessary precondition: with `pageSize = -1` both the backward and the
forward slice go out of range. -/
theorem slice_bounds_in_range (fetch : Fetch) (r r2 : Room) (a o n i off m : Int)
    (ha : 0 ≤ a) (ho : 0 ≤ o) (hn : 0 ≤ n) (hm : 0 ≤ m) :
    ((getBackwardEventRange fetch r a o n).events).isSome ∧
    (getForwardEventRange r2 i off m).isSome ∧
    (getBackwardEventRange failFetch emptyRoom 0 0 (-1)).events = none ∧
    getForwardEventRange roomA 0 1 (-1) = none := by
  refine ⟨?_, ?_, by decide, by decide⟩
  · obtain ⟨r3, tail, htail, heq⟩ := getBackwardEventRange_char fetch r a o n
    rw [heq]
    exact backRange_isSome r3.eventList a o n (by omega) hn
  · rw [getForwardEventRange_eq_some r2 i off m hm]
    rfl

/-- C10 witness: the bounds guarantee at concrete inputs. -/
theorem slice_bounds_in_range_witness :
    ((getBackwardEventRange fetchB roomA 0 0 1).events).isSome ∧
    (getForwardEventRange room10 0 1 1).isSome ∧
    (getBackwardEventRange failFetch emptyRoom 0 0 (-1)).events = none ∧
    getForwardEventRange roomA 0 1 (-1) = none :=
  slice_bounds_in_range fetchB roomA room10 0 0 1 0 1 1 (by decide) (by decide)
    (by decide) (by decide)
